import Mathlib

/-!
Verification of `chrome-deprecation-watcher` (src/src/extension.ts).

The development shallowly embeds the two parts of the extension that carry
its logic:

* the Match Engine `checkForDeprecations`, which scans a document's text for
  word-bounded, escaped-literal occurrences of each catalog entry's
  `apiName` via `new RegExp("\\b" + escaped + "\\b", "g")` and repeated
  `regex.exec`;
* the acquisition pipeline `getOrCreateReleaseNotes` /
  `fetchReleaseNotesHTML` / `parseHTMLwithCheerio` /
  `parseReleaseNotesWithCopilot`, which loads a cached catalog JSON file or
  fetches, extracts, infers and persists a new one.

Texts and strings are embedded as `List Char`; offsets are `Nat`.
External platform capabilities (axios, cheerio, the language-model call,
`JSON.parse` / `JSON.stringify`, the file system) are modelled as explicit
parameters or as executable stand-in functions, each documented at its
definition.
-/

namespace Cdw

/-- Word characters in the sense of the JavaScript regular-expression class
`\w` (ASCII letters, ASCII digits, underscore), on which the `\b` assertions
built in `checkForDeprecations` are based. -/
def isWordChar (c : Char) : Bool := c.isAlphanum || c == '_'

/-- Whether position `p` of text `t` holds a word character; positions past
the end count as non-word (string edge). -/
def wordAt (t : List Char) (p : Nat) : Bool :=
  match t[p]? with
  | some c => isWordChar c
  | none => false

/-- The JavaScript `\b` assertion at position `p` of `t`: exactly one of the
character before `p` and the character at `p` is a word character, with the
string edges counting as non-word. -/
def boundaryAt (t : List Char) (p : Nat) : Bool :=
  ((decide (p ≠ 0)) && wordAt t (p - 1)) != wordAt t p

/-- Whether the regex `\b<escaped name>\b` built by `checkForDeprecations`
matches at position `p` of `t`: the escaped `apiName` matches the literal
name itself, so the pattern matches at `p` iff the name occurs literally at
`p` and both `\b` assertions hold. -/
def matchesAt (name t : List Char) (p : Nat) : Bool :=
  decide ((t.drop p).take name.length = name) && boundaryAt t p &&
    boundaryAt t (p + name.length)

/-- One `regex.exec` step with `lastIndex = pos`: the least position
`p ≥ pos` at which the pattern matches, if any.  A match can start no later
than `t.length`. -/
def findFrom (name t : List Char) (pos : Nat) : Option Nat :=
  (List.range (t.length + 1)).find? (fun p => decide (pos ≤ p) && matchesAt name t p)

/-- The `while ((match = regex.exec(text)) !== null)` loop of
`checkForDeprecations`, returning the start offsets of the matches found.
After a match at `p` the engine resumes at `lastIndex = p + name.length`
(the pattern's `\b` assertions are zero-width).  The loop in the source is
unbounded; `fuel` bounds the number of iterations so that the embedding is
total, and the termination theorems below show the result is independent of
`fuel` once `fuel ≥ t.length + 1`, provided `name` is non-empty. -/
def scanAux (name t : List Char) : Nat → Nat → List Nat
  | 0, _ => []
  | fuel + 1, pos =>
    match findFrom name t pos with
    | none => []
    | some p => p :: scanAux name t fuel (p + name.length)

/-- All match start offsets of `\b<escaped name>\b` in `t`, in scan order,
computed with enough fuel for the scan of a non-empty name to run to
completion. -/
def execAll (name t : List Char) : List Nat :=
  scanAux name t (t.length + 1) 0

/-- The record type `DeprecatedAPI` of extension.ts:
`{ apiName: string; changeType: string; description: string }`. -/
structure DeprecatedAPI where
  apiName : List Char
  changeType : List Char
  description : List Char
deriving DecidableEq, Repr

/-- One match emitted by `checkForDeprecations`: the record's fields
together with the half-open offset range `[startOffset, endOffset)` computed
as `match.index` and `match.index + dep.apiName.length`. -/
structure MatchResult where
  apiName : List Char
  changeType : List Char
  description : List Char
  startOffset : Nat
  endOffset : Nat
deriving DecidableEq, Repr

/-- The matches `checkForDeprecations` emits for one catalog record `dep`
against text `t`, in scan order. -/
def matchesFor (dep : DeprecatedAPI) (t : List Char) : List MatchResult :=
  (execAll dep.apiName t).map (fun p =>
    { apiName := dep.apiName
      changeType := dep.changeType
      description := dep.description
      startOffset := p
      endOffset := p + dep.apiName.length })

/-- The Match Engine `checkForDeprecations` with the per-record scan loop cut
off at `fuel` iterations; used to state that the source's unbounded loop
terminates. -/
def checkWithFuel (deps : List DeprecatedAPI) (t : List Char) (fuel : Nat) :
    List MatchResult :=
  (deps.map (fun dep =>
    (scanAux dep.apiName t fuel 0).map (fun p =>
      { apiName := dep.apiName
        changeType := dep.changeType
        description := dep.description
        startOffset := p
        endOffset := p + dep.apiName.length : MatchResult }))).flatten

/-- The Match Engine of extension.ts: for each record of the catalog in
order, all word-bounded literal occurrences of its `apiName` in the
document's text, emitted in scan order and concatenated in catalog order. -/
def checkForDeprecations (deps : List DeprecatedAPI) (t : List Char) :
    List MatchResult :=
  (deps.map (fun dep => matchesFor dep t)).flatten

/-- Catalog record used in the concrete word-boundary scenarios. -/
def fooRec : DeprecatedAPI :=
  { apiName := "Foo".toList
    changeType := "Deprecated".toList
    description := "Use something else.".toList }

/-- Catalog record whose `apiName` contains the regex metacharacters `.`,
`(` and `)`. -/
def metaRec : DeprecatedAPI :=
  { apiName := "a.b()".toList
    changeType := "Removed".toList
    description := "gone".toList }

/-- The single match of `fooRec` in "x Foo y". -/
def fooMatch : MatchResult :=
  { apiName := "Foo".toList
    changeType := "Deprecated".toList
    description := "Use something else.".toList
    startOffset := 2
    endOffset := 5 }

/-- JSON values, in the fragment this development exercises: strings,
objects with string-valued fields, and arrays of those.  Modelled from the
spec: the JavaScript `JSON.parse` / `JSON.stringify` builtins used by
`getOrCreateReleaseNotes` and `parseReleaseNotesWithCopilot` are platform
capabilities, not code of this repository, so the JSON value space and its
serialization are modelled (§4.1: "a stable, re-parsable serialization"). -/
inductive JVal where
  | jstr : List Char → JVal
  | jobj : List (List Char × List Char) → JVal
deriving DecidableEq, Repr

/-- A top-level JSON value as `JSON.parse` can return it: an ordered
sequence (array) of values, or a single non-array value. -/
inductive Json where
  | jarr : List JVal → Json
  | jatom : JVal → Json
deriving DecidableEq, Repr

/-- Unary length marker of the serialization stand-in: `n` copies of `1`
terminated by `#`. -/
def encNat (n : Nat) : List Char := List.replicate n '1' ++ ['#']

/-- Reads back a length marker, returning the remaining input. -/
def decNat : List Char → Option (Nat × List Char)
  | [] => none
  | c :: rest =>
    if c = '#' then some (0, rest)
    else if c = '1' then
      match decNat rest with
      | some (n, r) => some (n + 1, r)
      | none => none
    else none

/-- Serialized form of a JSON string. -/
def encodeStrV (s : List Char) : List Char := 'S' :: (encNat s.length ++ s)

/-- Serialized form of one object field (key and string value). -/
def encodeKV (kv : List Char × List Char) : List Char :=
  encNat kv.1.length ++ kv.1 ++ encodeStrV kv.2

/-- Serialized form of a non-array JSON value. -/
def encodeJVal : JVal → List Char
  | .jstr s => encodeStrV s
  | .jobj kvs => 'O' :: (encNat kvs.length ++ (kvs.map encodeKV).flatten)

/-- Modelled from the spec: the `JSON.stringify` platform builtin — a
stable, re-parsable serialization of a JSON value (§4.1, §6). -/
def jsonStringify : Json → List Char
  | .jatom v => encodeJVal v
  | .jarr xs => 'A' :: (encNat xs.length ++ (xs.map encodeJVal).flatten)

/-- Reads back a serialized JSON string, returning the remaining input. -/
def decStr (l : List Char) : Option (List Char × List Char) :=
  match l with
  | [] => none
  | c :: rest =>
    if c = 'S' then
      match decNat rest with
      | some (n, r) => if n ≤ r.length then some (r.take n, r.drop n) else none
      | none => none
    else none

/-- Reads back one serialized object field. -/
def decKV (l : List Char) : Option ((List Char × List Char) × List Char) :=
  match decNat l with
  | some (n, r) =>
    if n ≤ r.length then
      match decStr (r.drop n) with
      | some (v, r2) => some ((r.take n, v), r2)
      | none => none
    else none
  | none => none

/-- Reads back `n` serialized object fields. -/
def decKVs : Nat → List Char → Option (List (List Char × List Char) × List Char)
  | 0, l => some ([], l)
  | n + 1, l =>
    match decKV l with
    | some (kv, r) =>
      match decKVs n r with
      | some (kvs, r2) => some (kv :: kvs, r2)
      | none => none
    | none => none

/-- Reads back a serialized non-array JSON value. -/
def decJVal (l : List Char) : Option (JVal × List Char) :=
  match l with
  | [] => none
  | c :: rest =>
    if c = 'O' then
      match decNat rest with
      | some (n, r) =>
        match decKVs n r with
        | some (kvs, r2) => some (.jobj kvs, r2)
        | none => none
      | none => none
    else
      match decStr (c :: rest) with
      | some (s, r) => some (.jstr s, r)
      | none => none

/-- Reads back `n` serialized non-array JSON values. -/
def decJVals : Nat → List Char → Option (List JVal × List Char)
  | 0, l => some ([], l)
  | n + 1, l =>
    match decJVal l with
    | some (v, r) =>
      match decJVals n r with
      | some (vs, r2) => some (v :: vs, r2)
      | none => none
    | none => none

/-- Reads back a serialized top-level JSON value. -/
def decJson (l : List Char) : Option (Json × List Char) :=
  match l with
  | [] => none
  | c :: rest =>
    if c = 'A' then
      match decNat rest with
      | some (n, r) =>
        match decJVals n r with
        | some (xs, r2) => some (.jarr xs, r2)
        | none => none
      | none => none
    else
      match decJVal (c :: rest) with
      | some (v, r) => some (.jatom v, r)
      | none => none

/-- Modelled from the spec: the `JSON.parse` platform builtin — a partial
inverse of `jsonStringify` that fails (models the thrown `SyntaxError`,
always caught at its use sites in the source) on any input that is not a
serialized JSON value. -/
def jsonParse (l : List Char) : Option Json :=
  match decJson l with
  | some (j, []) => some j
  | _ => none

/-- The JSON form of one `DeprecatedAPI` record: an object with the three
string fields `apiName`, `changeType`, `description`. -/
def recordToJVal (d : DeprecatedAPI) : JVal :=
  .jobj [("apiName".toList, d.apiName), ("changeType".toList, d.changeType),
         ("description".toList, d.description)]

/-- The JSON form of a catalog: the ordered array of its record objects. -/
def catalogToJson (rs : List DeprecatedAPI) : Json := .jarr (rs.map recordToJVal)

/-- Transport error: what axios throws on a non-success outcome. -/
structure FetchErr where
  status : Nat
  message : List Char
deriving DecidableEq, Repr

/-- The persistent blob storage (global-storage directory): an association
of file names to file contents, the first binding for a name being the
current one. -/
abbrev Store := List (List Char × List Char)

/-- Reads a file: `fs.existsSync` + `fs.readFileSync`. -/
def lookupStore : Store → List Char → Option (List Char)
  | [], _ => none
  | (k, v) :: rest, key => if k = key then some v else lookupStore rest key

/-- Writes (or overwrites) a file: `fs.writeFileSync`. -/
def insertStore (st : Store) (k v : List Char) : Store := (k, v) :: st

/-- The cache file name `chromeReleaseNotes_` + versionNumber + `.json`
that `getOrCreateReleaseNotes` derives from the version identifier. -/
def fileNameFor (versionNumber : List Char) : List Char :=
  "chromeReleaseNotes_".toList ++ versionNumber ++ ".json".toList

/-- The external capabilities consumed by one acquisition run: the outcome
of the axios GET (raw HTML, or a thrown transport error), the cheerio
extraction of `h3` heading/content pairs from HTML, whether
`vscode.lm.selectChatModels` finds a model, and the model's streamed text
response to a prompt. -/
structure AcqEnv where
  fetchResult : Except FetchErr (List Char)
  cheerioSections : List Char → List (List Char × List Char)
  hasModel : Bool
  respond : List Char → List Char

/-- fetchReleaseNotesHTML of extension.ts: awaits the axios GET and returns
its data; a transport failure is a thrown error, i.e. `Except.error`, which
the function does not catch. -/
def fetchReleaseNotesHTML (env : AcqEnv) : Except FetchErr (List Char) :=
  env.fetchResult

/-- parseHTMLwithCheerio of extension.ts: for each `h3` heading, the string
`HEADING: ` + heading + newline + `CONTENT: ` + following text. -/
def parseHTMLwithCheerio (env : AcqEnv) (html : List Char) : List (List Char) :=
  (env.cheerioSections html).map (fun hc =>
    "HEADING: ".toList ++ hc.1 ++ "\nCONTENT: ".toList ++ hc.2)

/-- Leading text of the user query template that
parseReleaseNotesWithCopilot builds (braces written as escapes). -/
def copilotQueryHead : List Char :=
  ("\n  You are given text extracted from Chrome release notes.\n  Identify any deprecated or changed APIs and return them in a JSON array of objects,\n  using the code block ```json ...``` format.\n  Example:\n  ```json\n  [\n    \x7b \"apiName\": \"...\", \"changeType\": \"...\", \"description\": \"...\" \x7d,\n    ...\n  ]\n  ```\n  Here is the text:\n  ").toList

/-- The full user query: template head, the sections joined by blank lines
(the `sections.join` of the source), and the template tail. -/
def copilotQuery (sections : List (List Char)) : List Char :=
  copilotQueryHead ++ List.intercalate "\n\n".toList sections ++ "\n  ".toList

/-- Leftmost occurrence of `pat` as a contiguous sublist of `t`. -/
def indexOfSub? (pat t : List Char) : Option Nat :=
  (List.range (t.length + 1)).find? (fun p => decide ((t.drop p).take pat.length = pat))

/-- The single non-greedy regex scan over the model response: the first
fenced block opened by three backticks + `json` and closed by three
backticks, returning the capture between the markers.  The leftmost
position where the whole pattern matches starts at the leftmost occurrence
of the opening marker (a closing marker after any later occurrence also
lies after the first), and the lazy capture runs to the first closing
marker after it. -/
def extractJsonBlock (response : List Char) : Option (List Char) :=
  match indexOfSub? "```json".toList response with
  | none => none
  | some i =>
    match indexOfSub? "```".toList (response.drop (i + 7)) with
    | none => none
    | some j => some ((response.drop (i + 7)).take j)

/-- The response-handling tail of parseReleaseNotesWithCopilot: if a fenced
json block with a non-empty capture is found (`match && match[1]`, where an
empty capture is falsy) its contents are fed to `JSON.parse`; a successful
parse is returned as-is (no check that it is an array); everything else
falls through to the empty-array fallback. -/
def handleCopilotResponse (responseText : List Char) : Json :=
  match extractJsonBlock responseText with
  | some content =>
    if content.isEmpty then Json.jarr []
    else
      match jsonParse content with
      | some parsed => parsed
      | none => Json.jarr []
  | none => Json.jarr []

/-- parseReleaseNotesWithCopilot of extension.ts: returns the empty array
if no chat model is available; otherwise builds the user query from the
sections, obtains the streamed response, and handles it as above. -/
def parseReleaseNotesWithCopilot (env : AcqEnv) (sections : List (List Char)) :
    Json :=
  if env.hasModel = false then Json.jarr []
  else handleCopilotResponse (env.respond (copilotQuery sections))

/-- The cache-read step of getOrCreateReleaseNotes: the stored file for the
version, if present, parsed with `JSON.parse`; a parse failure is caught
and treated like an absent file. -/
def cachedJson (st : Store) (versionNumber : List Char) : Option Json :=
  match lookupStore st (fileNameFor versionNumber) with
  | some existingData => jsonParse existingData
  | none => none

/-- getOrCreateReleaseNotes of extension.ts: return the parsed cache file
when one parses; otherwise fetch (a transport error propagates — there is
no try/catch around `fetchReleaseNotesHTML`), extract sections, run the
inference step, write the result to the cache file unconditionally, and
return it.  The result pairs the returned JSON value with the store as left
by the run. -/
def getOrCreateReleaseNotes (env : AcqEnv) (versionNumber : List Char)
    (st : Store) : Except FetchErr (Json × Store) :=
  match cachedJson st versionNumber with
  | some parsed => Except.ok (parsed, st)
  | none =>
    match fetchReleaseNotesHTML env with
    | Except.error e => Except.error e
    | Except.ok rawHTML =>
      let extractedSections := parseHTMLwithCheerio env rawHTML
      let newData := parseReleaseNotesWithCopilot env extractedSections
      Except.ok (newData, insertStore st (fileNameFor versionNumber)
        (jsonStringify newData))

/-- Persisting a catalog for a version identifier: the write
`fs.writeFileSync(filePath, JSON.stringify(newData, null, 2))` of
getOrCreateReleaseNotes, at the JSON value level. -/
def saveCatalog (st : Store) (versionNumber : List Char) (j : Json) : Store :=
  insertStore st (fileNameFor versionNumber) (jsonStringify j)

/-- Loading a persisted catalog: read the version's cache file and parse
it, `none` on absence or parse failure. -/
def loadCatalog (st : Store) (versionNumber : List Char) : Option Json :=
  match lookupStore st (fileNameFor versionNumber) with
  | some bytes => jsonParse bytes
  | none => none

/-- Transport error used in the concrete acquisition scenarios. -/
def err404 : FetchErr := { status := 404, message := "Not Found".toList }

/-- Environment whose fetch fails with a transport error. -/
def envFetchFail : AcqEnv :=
  { fetchResult := Except.error err404
    cheerioSections := fun _ => []
    hasModel := true
    respond := fun _ => [] }

/-- Environment whose fetch succeeds but where no chat model is available,
so the inference step yields zero records. -/
def envOkNoModel : AcqEnv :=
  { fetchResult := Except.ok "<html></html>".toList
    cheerioSections := fun _ => []
    hasModel := false
    respond := fun _ => [] }

/-- A model response whose fenced json block parses to a non-array JSON
value (a bare object). -/
def nonArrayResponse : List Char := "```jsonO#```".toList

/-- A successful `findFrom` step yields a position at or after the current
scan position, within the text, at which the pattern matches. -/
theorem findFrom_eq_some {name t : List Char} {pos p : Nat}
    (h : findFrom name t pos = some p) :
    pos ≤ p ∧ p ≤ t.length ∧ matchesAt name t p = true := by
  have hp := List.find?_some h
  have hmem := List.mem_of_find?_eq_some h
  rw [List.mem_range] at hmem
  rw [Bool.and_eq_true, decide_eq_true_iff] at hp
  exact ⟨hp.1, by omega, hp.2⟩

/-- A pattern match at `p` means the literal name occurs at `p`. -/
theorem matchesAt_take {name t : List Char} {p : Nat}
    (h : matchesAt name t p = true) :
    (t.drop p).take name.length = name := by
  rw [matchesAt, Bool.and_eq_true, Bool.and_eq_true, decide_eq_true_iff] at h
  exact h.1.1

/-- A pattern match at a position `p ≤ t.length` ends within the text. -/
theorem matchesAt_end_le {name t : List Char} {p : Nat}
    (hm : matchesAt name t p = true) (hp : p ≤ t.length) :
    p + name.length ≤ t.length := by
  have h1 := matchesAt_take hm
  have h2 : ((t.drop p).take name.length).length = name.length := by rw [h1]
  rw [List.length_take, List.length_drop] at h2
  omega

/-- Past the end of the text, `findFrom` finds nothing. -/
theorem findFrom_eq_none {name t : List Char} {pos : Nat} (h : t.length < pos) :
    findFrom name t pos = none := by
  rw [findFrom, List.find?_eq_none]
  intro x hx
  rw [List.mem_range] at hx
  simp only [Bool.and_eq_true, decide_eq_true_iff, not_and]
  intro hle
  omega

/-- Every offset emitted by the scan loop is at or after the scan position
where the loop was entered, lies within the text, and is a position at which
the pattern matches. -/
theorem mem_scanAux {name t : List Char} :
    ∀ {fuel pos p : Nat}, p ∈ scanAux name t fuel pos →
      pos ≤ p ∧ p ≤ t.length ∧ matchesAt name t p = true := by
  intro fuel
  induction fuel with
  | zero => intro pos p h; simp [scanAux] at h
  | succ f ih =>
    intro pos p h
    simp only [scanAux] at h
    cases hf : findFrom name t pos with
    | none => rw [hf] at h; simp at h
    | some q =>
      rw [hf] at h
      rcases List.mem_cons.mp h with hpq | htail
      · subst hpq; exact findFrom_eq_some hf
      · have h1 := findFrom_eq_some hf
        have h2 := ih htail
        exact ⟨by omega, h2.2.1, h2.2.2⟩

/-- Consecutive offsets emitted by the scan loop are separated by at least
the length of the name: the scan resumes at the end of each match. -/
theorem chain'_scanAux {name t : List Char} :
    ∀ fuel pos,
      List.Chain' (fun a b => a + name.length ≤ b) (scanAux name t fuel pos) := by
  intro fuel
  induction fuel with
  | zero => intro pos; simp [scanAux]
  | succ f ih =>
    intro pos
    simp only [scanAux]
    cases hf : findFrom name t pos with
    | none => simp
    | some p =>
      rw [List.chain'_cons']
      refine ⟨?_, ih (p + name.length)⟩
      intro q hq
      exact (mem_scanAux (List.mem_of_mem_head? hq)).1

/-- For a non-empty name, the result of the scan loop is independent of the
fuel bound once the bound covers the remaining scan range: the loop of the
source terminates because each match strictly advances the scan position. -/
theorem scanAux_fuel {name t : List Char} (hne : name ≠ []) :
    ∀ fuel1 fuel2 pos, t.length + 1 - pos ≤ fuel1 → t.length + 1 - pos ≤ fuel2 →
      scanAux name t fuel1 pos = scanAux name t fuel2 pos := by
  intro fuel1
  induction fuel1 with
  | zero =>
    intro fuel2 pos h1 h2
    have hpos : t.length < pos := by omega
    cases fuel2 with
    | zero => rfl
    | succ f2 => simp [scanAux, findFrom_eq_none hpos]
  | succ f1 ih =>
    intro fuel2 pos h1 h2
    cases fuel2 with
    | zero =>
      have hpos : t.length < pos := by omega
      simp [scanAux, findFrom_eq_none hpos]
    | succ f2 =>
      simp only [scanAux]
      cases hf : findFrom name t pos with
      | none => rfl
      | some p =>
        have h3 := findFrom_eq_some hf
        have h4 : p + name.length ≤ t.length := matchesAt_end_le h3.2.2 h3.2.1
        have h5 : 0 < name.length := List.length_pos.mpr hne
        show p :: scanAux name t f1 (p + name.length) =
          p :: scanAux name t f2 (p + name.length)
        rw [ih f2 (p + name.length) (by omega) (by omega)]

/-- The Match Engine on a one-record catalog emits exactly that record's
matches. -/
theorem checkForDeprecations_singleton (dep : DeprecatedAPI) (t : List Char) :
    checkForDeprecations [dep] t = matchesFor dep t := by
  simp [checkForDeprecations]

/-- The start offsets of a record's matches are the scan's offsets. -/
theorem map_startOffset_matchesFor (dep : DeprecatedAPI) (t : List Char) :
    (matchesFor dep t).map MatchResult.startOffset = execAll dep.apiName t := by
  rw [matchesFor, List.map_map]
  exact List.map_id'' (fun p => rfl) _

/-- The offset ranges of a record's matches are the scan's offsets paired
with their ends. -/
theorem map_range_matchesFor (dep : DeprecatedAPI) (t : List Char) :
    (matchesFor dep t).map (fun m => (m.startOffset, m.endOffset))
      = (execAll dep.apiName t).map (fun p => (p, p + dep.apiName.length)) := by
  rw [matchesFor, List.map_map]
  rfl

/-- C4: word-boundary semantics of the Match Engine for any record with
apiName "Foo": "x Foo y" yields exactly one match, at offset 2; "FooBar",
"xFoo" and "FooFoo" yield zero matches; "Foo Foo" yields exactly two
matches, with start offsets 0 and 4. -/
theorem matchEngine_word_boundary_and_adjacency (ct ds : List Char) :
    (checkForDeprecations [⟨"Foo".toList, ct, ds⟩] "x Foo y".toList).length = 1 ∧
    (checkForDeprecations [⟨"Foo".toList, ct, ds⟩] "x Foo y".toList).map
        MatchResult.startOffset = [2] ∧
    checkForDeprecations [⟨"Foo".toList, ct, ds⟩] "FooBar".toList = [] ∧
    checkForDeprecations [⟨"Foo".toList, ct, ds⟩] "xFoo".toList = [] ∧
    checkForDeprecations [⟨"Foo".toList, ct, ds⟩] "FooFoo".toList = [] ∧
    (checkForDeprecations [⟨"Foo".toList, ct, ds⟩] "Foo Foo".toList).length = 2 ∧
    (checkForDeprecations [⟨"Foo".toList, ct, ds⟩] "Foo Foo".toList).map
        MatchResult.startOffset = [0, 4] := by
  refine ⟨?_, ?_, ?_, ?_, ?_, ?_, ?_⟩
  · rw [checkForDeprecations_singleton, matchesFor, List.length_map]
    show (execAll "Foo".toList "x Foo y".toList).length = 1
    decide
  · rw [checkForDeprecations_singleton, map_startOffset_matchesFor]
    show execAll "Foo".toList "x Foo y".toList = [2]
    decide
  · rw [checkForDeprecations_singleton, matchesFor,
      show execAll "Foo".toList "FooBar".toList = [] from by decide, List.map_nil]
  · rw [checkForDeprecations_singleton, matchesFor,
      show execAll "Foo".toList "xFoo".toList = [] from by decide, List.map_nil]
  · rw [checkForDeprecations_singleton, matchesFor,
      show execAll "Foo".toList "FooFoo".toList = [] from by decide, List.map_nil]
  · rw [checkForDeprecations_singleton, matchesFor, List.length_map]
    show (execAll "Foo".toList "Foo Foo".toList).length = 2
    decide
  · rw [checkForDeprecations_singleton, map_startOffset_matchesFor]
    show execAll "Foo".toList "Foo Foo".toList = [0, 4]
    decide

/-- C1 counterexample: the text "a.b()" contains the apiName "a.b()" of
`metaRec` exactly (at offset 0), yet the Match Engine yields no match: the
name ends in the non-word character `)`, so the trailing `\b` assertion of
the pattern fails between `)` and the end of the text. -/
theorem metachar_exact_occurrence_can_fail :
    (("a.b()".toList.drop 0).take metaRec.apiName.length = metaRec.apiName) ∧
    checkForDeprecations [metaRec] "a.b()".toList = [] := by decide

/-- C1 amended: the metacharacters of `apiName` are escaped, so the name is
matched literally — a text containing the name with one character
substituted at a metacharacter position yields no match — and a text
containing the name exactly yields a match covering that occurrence
provided the `\b` assertions hold at both ends of the occurrence (for
"a.b()", which ends in a non-word character, this requires a word character
right after the occurrence, as in "a.b()x"); an occurrence followed by the
end of the text yields no match. -/
theorem metachar_literal_matching (ct ds : List Char) :
    (checkForDeprecations [⟨"a.b()".toList, ct, ds⟩] "a.b()x".toList).map
        (fun m => (m.startOffset, m.endOffset)) = [(0, 5)] ∧
    checkForDeprecations [⟨"a.b()".toList, ct, ds⟩] "azb()x".toList = [] ∧
    checkForDeprecations [⟨"a.b()".toList, ct, ds⟩] "a.b()".toList = [] := by
  refine ⟨?_, ?_, ?_⟩
  · rw [checkForDeprecations_singleton, map_range_matchesFor]
    show (execAll "a.b()".toList "a.b()x".toList).map
      (fun p => (p, p + "a.b()".toList.length)) = [(0, 5)]
    decide
  · rw [checkForDeprecations_singleton, matchesFor,
      show execAll "a.b()".toList "azb()x".toList = [] from by decide, List.map_nil]
  · rw [checkForDeprecations_singleton, matchesFor,
      show execAll "a.b()".toList "a.b()".toList = [] from by decide, List.map_nil]

/-- C8: the Match Engine is a pure function of `(catalog, text)` — two
invocations on the identical pair yield identical ordered results — and its
output is grouped by catalog order (the concatenation, in catalog order, of
the per-record match lists), each per-record group being ordered by
ascending position in the text. -/
theorem matchEngine_deterministic_and_grouped (deps : List DeprecatedAPI)
    (t : List Char) :
    checkForDeprecations deps t = checkForDeprecations deps t ∧
    checkForDeprecations deps t = (deps.map (fun dep => matchesFor dep t)).flatten ∧
    ∀ dep : DeprecatedAPI,
      List.Sorted (· ≤ ·) ((matchesFor dep t).map MatchResult.startOffset) := by
  refine ⟨rfl, rfl, ?_⟩
  intro dep
  rw [map_startOffset_matchesFor]
  have h2 := @chain'_scanAux dep.apiName t (t.length + 1) 0
  exact List.chain'_iff_pairwise.mp (h2.imp (fun hab => by omega))

/-- C9: every match emitted by the Match Engine has `0 ≤ startOffset`,
`endOffset = startOffset + apiName.length ≤ text.length`, and the text
slice at `[startOffset, endOffset)` is exactly the record's apiName. -/
theorem matchResult_range_invariant (deps : List DeprecatedAPI) (t : List Char)
    (m : MatchResult) (hm : m ∈ checkForDeprecations deps t) :
    0 ≤ m.startOffset ∧
    m.endOffset = m.startOffset + m.apiName.length ∧
    m.endOffset ≤ t.length ∧
    (t.drop m.startOffset).take m.apiName.length = m.apiName := by
  rw [checkForDeprecations, List.mem_flatten] at hm
  obtain ⟨l, hl, hml⟩ := hm
  rw [List.mem_map] at hl
  obtain ⟨dep, _, rfl⟩ := hl
  rw [matchesFor, List.mem_map] at hml
  obtain ⟨p, hp, rfl⟩ := hml
  have h1 := @mem_scanAux dep.apiName t (t.length + 1) 0 p hp
  refine ⟨Nat.zero_le _, rfl, ?_, matchesAt_take h1.2.2⟩
  exact matchesAt_end_le h1.2.2 h1.2.1

/-- Witness for the range invariant, at the match of "Foo" in "x Foo y". -/
theorem matchResult_range_invariant_witness :
    0 ≤ fooMatch.startOffset ∧
    fooMatch.endOffset = fooMatch.startOffset + fooMatch.apiName.length ∧
    fooMatch.endOffset ≤ "x Foo y".toList.length ∧
    ("x Foo y".toList.drop fooMatch.startOffset).take fooMatch.apiName.length =
      fooMatch.apiName :=
  matchResult_range_invariant [fooRec] "x Foo y".toList fooMatch (by decide)

/-- C10: when every record's apiName is non-empty, the repeated-search scan
of the Match Engine terminates on every finite text — the fuel-bounded
embedding of the unbounded source loop is independent of the fuel once the
fuel covers the text — and the emitted scan positions strictly increase. -/
theorem matchEngine_scan_terminates (deps : List DeprecatedAPI) (t : List Char)
    (h : ∀ dep ∈ deps, dep.apiName ≠ []) :
    (∀ fuel, t.length + 1 ≤ fuel →
      checkWithFuel deps t fuel = checkForDeprecations deps t) ∧
    ∀ dep ∈ deps, List.Chain' (· < ·) (execAll dep.apiName t) := by
  constructor
  · intro fuel hfuel
    rw [checkWithFuel, checkForDeprecations]
    congr 1
    apply List.map_congr_left
    intro dep hdep
    rw [matchesFor, execAll,
      scanAux_fuel (h dep hdep) fuel (t.length + 1) 0 (by omega) (by omega)]
  · intro dep hdep
    have h5 : 0 < dep.apiName.length := List.length_pos.mpr (h dep hdep)
    have h2 := @chain'_scanAux dep.apiName t (t.length + 1) 0
    exact h2.imp (fun hab => by omega)

/-- Witness for scan termination, on the catalog `[fooRec]` and the text
"Foo Foo" with a generous fuel bound. -/
theorem matchEngine_scan_terminates_witness :
    checkWithFuel [fooRec] "Foo Foo".toList 42 =
      checkForDeprecations [fooRec] "Foo Foo".toList ∧
    List.Chain' (· < ·) (execAll fooRec.apiName "Foo Foo".toList) :=
  ⟨(matchEngine_scan_terminates [fooRec] "Foo Foo".toList (by decide)).1 42 (by decide),
   (matchEngine_scan_terminates [fooRec] "Foo Foo".toList (by decide)).2 fooRec
     (by decide)⟩

/-- Reading back a length marker recovers the encoded number. -/
theorem decNat_encNat (n : Nat) (rest : List Char) :
    decNat (encNat n ++ rest) = some (n, rest) := by
  induction n with
  | zero => rfl
  | succ k ih =>
    have h : encNat (k + 1) ++ rest = '1' :: (encNat k ++ rest) := by
      simp [encNat, List.replicate_succ]
    rw [h]
    simp only [decNat]
    rw [if_neg (by decide), if_pos trivial, ih]

/-- Reading back a serialized string recovers it. -/
theorem decStr_enc (s rest : List Char) :
    decStr (encodeStrV s ++ rest) = some (s, rest) := by
  have h : encodeStrV s ++ rest = 'S' :: (encNat s.length ++ (s ++ rest)) := by
    simp [encodeStrV]
  rw [h]
  simp only [decStr]
  rw [if_pos trivial, decNat_encNat]
  simp only [List.length_append, if_pos (Nat.le_add_right s.length rest.length),
    List.take_left, List.drop_left]

/-- Reading back a serialized object field recovers it. -/
theorem decKV_enc (kv : List Char × List Char) (rest : List Char) :
    decKV (encodeKV kv ++ rest) = some (kv, rest) := by
  obtain ⟨k, v⟩ := kv
  have h : encodeKV (k, v) ++ rest = encNat k.length ++ (k ++ (encodeStrV v ++ rest)) := by
    simp [encodeKV]
  rw [h]
  simp only [decKV, decNat_encNat]
  rw [if_pos (by simp)]
  rw [List.drop_left, List.take_left, decStr_enc]

/-- Reading back a run of serialized object fields recovers them. -/
theorem decKVs_enc (kvs : List (List Char × List Char)) (rest : List Char) :
    decKVs kvs.length ((kvs.map encodeKV).flatten ++ rest) = some (kvs, rest) := by
  induction kvs generalizing rest with
  | nil => rfl
  | cons kv kvs ih =>
    have h : ((kv :: kvs).map encodeKV).flatten ++ rest
        = encodeKV kv ++ ((kvs.map encodeKV).flatten ++ rest) := by
      simp
    rw [List.length_cons, h]
    simp only [decKVs]
    rw [decKV_enc]
    simp only [ih]

/-- Reading back a serialized non-array value recovers it. -/
theorem decJVal_enc (v : JVal) (rest : List Char) :
    decJVal (encodeJVal v ++ rest) = some (v, rest) := by
  cases v with
  | jstr s =>
    have h : encodeJVal (JVal.jstr s) ++ rest
        = 'S' :: (encNat s.length ++ (s ++ rest)) := by
      simp [encodeJVal, encodeStrV]
    rw [h]
    simp only [decJVal]
    rw [if_neg (by decide), ← List.cons_append, ← List.append_assoc]
    have h2 : ('S' :: encNat s.length) ++ s = encodeStrV s := by
      simp [encodeStrV]
    rw [h2, decStr_enc]
  | jobj kvs =>
    have h : encodeJVal (JVal.jobj kvs) ++ rest
        = 'O' :: (encNat kvs.length ++ ((kvs.map encodeKV).flatten ++ rest)) := by
      simp [encodeJVal]
    rw [h]
    simp only [decJVal]
    rw [if_pos trivial, decNat_encNat]
    simp only [decKVs_enc]

/-- Reading back a run of serialized non-array values recovers them. -/
theorem decJVals_enc (xs : List JVal) (rest : List Char) :
    decJVals xs.length ((xs.map encodeJVal).flatten ++ rest) = some (xs, rest) := by
  induction xs generalizing rest with
  | nil => rfl
  | cons x xs ih =>
    have h : ((x :: xs).map encodeJVal).flatten ++ rest
        = encodeJVal x ++ ((xs.map encodeJVal).flatten ++ rest) := by
      simp
    rw [List.length_cons, h]
    simp only [decJVals]
    rw [decJVal_enc]
    simp only [ih]

/-- The head character of a serialized non-array value is `S` or `O`, never
the array tag `A`. -/
theorem decJson_atom (v : JVal) (rest : List Char) :
    decJson (encodeJVal v ++ rest) = some (Json.jatom v, rest) := by
  cases v with
  | jstr s =>
    have h : encodeJVal (JVal.jstr s) ++ rest
        = 'S' :: (encNat s.length ++ (s ++ rest)) := by
      simp [encodeJVal, encodeStrV]
    rw [h]
    simp only [decJson]
    rw [if_neg (by decide), ← h, decJVal_enc]
  | jobj kvs =>
    have h : encodeJVal (JVal.jobj kvs) ++ rest
        = 'O' :: (encNat kvs.length ++ ((kvs.map encodeKV).flatten ++ rest)) := by
      simp [encodeJVal]
    rw [h]
    simp only [decJson]
    rw [if_neg (by decide), ← h, decJVal_enc]

/-- Reading back a serialized top-level value recovers it. -/
theorem decJson_stringify (j : Json) (rest : List Char) :
    decJson (jsonStringify j ++ rest) = some (j, rest) := by
  cases j with
  | jatom v => exact decJson_atom v rest
  | jarr xs =>
    have h : jsonStringify (Json.jarr xs) ++ rest
        = 'A' :: (encNat xs.length ++ ((xs.map encodeJVal).flatten ++ rest)) := by
      simp [jsonStringify]
    rw [h]
    simp only [decJson]
    rw [if_pos trivial, decNat_encNat]
    simp only [decJVals_enc]

/-- The serialization stand-in is re-parsable: `jsonParse` inverts
`jsonStringify`, which is the property §4.1 requires of the persisted
form. -/
theorem jsonParse_stringify (j : Json) : jsonParse (jsonStringify j) = some j := by
  have h := decJson_stringify j []
  rw [List.append_nil] at h
  rw [jsonParse, h]

/-- A freshly written cache file is found by the next read. -/
theorem lookupStore_insert (st : Store) (k v : List Char) :
    lookupStore (insertStore st k v) k = some v := by
  simp [insertStore, lookupStore]

/-- Cache hit: when the stored file for the version parses, the run returns
the parsed value unchanged and leaves the store untouched; the result does
not depend on the environment, i.e. neither the fetch capability nor the
inference capability is consulted. -/
theorem getOrCreate_hit {st : Store} {v : List Char} {j : Json}
    (h : cachedJson st v = some j) (env : AcqEnv) :
    getOrCreateReleaseNotes env v st = Except.ok (j, st) := by
  rw [getOrCreateReleaseNotes, h]

/-- Cache miss with a transport failure: the thrown error propagates out of
getOrCreateReleaseNotes. -/
theorem getOrCreate_miss_error {st : Store} {v : List Char} {e : FetchErr}
    (h : cachedJson st v = none) (env : AcqEnv)
    (hf : env.fetchResult = Except.error e) :
    getOrCreateReleaseNotes env v st = Except.error e := by
  rw [getOrCreateReleaseNotes, h, fetchReleaseNotesHTML, hf]

/-- Cache miss with a successful fetch: the run returns the inference
result and persists it unconditionally. -/
theorem getOrCreate_miss_ok {st : Store} {v : List Char} {rawHTML : List Char}
    (h : cachedJson st v = none) (env : AcqEnv)
    (hf : env.fetchResult = Except.ok rawHTML) :
    getOrCreateReleaseNotes env v st =
      Except.ok (parseReleaseNotesWithCopilot env (parseHTMLwithCheerio env rawHTML),
        insertStore st (fileNameFor v)
          (jsonStringify
            (parseReleaseNotesWithCopilot env (parseHTMLwithCheerio env rawHTML)))) := by
  rw [getOrCreateReleaseNotes, h, fetchReleaseNotesHTML, hf]

/-- An absent cache file is a cache miss. -/
theorem cachedJson_of_lookup_none {st : Store} {v : List Char}
    (h : lookupStore st (fileNameFor v) = none) : cachedJson st v = none := by
  rw [cachedJson, h]

/-- A stored serialization of a JSON value is a cache hit for that value. -/
theorem cachedJson_of_lookup_stringify {st : Store} {v : List Char} {j : Json}
    (h : lookupStore st (fileNameFor v) = some (jsonStringify j)) :
    cachedJson st v = some j := by
  rw [cachedJson, h]
  exact jsonParse_stringify j

/-- When no chat model is available the inference step returns the empty
array. -/
theorem parseReleaseNotes_no_model {env : AcqEnv} (h : env.hasModel = false)
    (sections : List (List Char)) :
    parseReleaseNotesWithCopilot env sections = Json.jarr [] := by
  rw [parseReleaseNotesWithCopilot, h, if_pos rfl]

/-- C6: cache-first contract — when the Catalog Store already holds the
persisted serialization of a catalog for version `v`, the run returns that
catalog and leaves the store unchanged, and its outcome is independent of
the environment: neither the fetch capability nor the inference capability
is invoked. -/
theorem acquirer_cache_first (st : Store) (v : List Char)
    (C : List DeprecatedAPI)
    (h : lookupStore st (fileNameFor v) = some (jsonStringify (catalogToJson C))) :
    ∀ env env2 : AcqEnv,
      getOrCreateReleaseNotes env v st = Except.ok (catalogToJson C, st) ∧
      getOrCreateReleaseNotes env v st = getOrCreateReleaseNotes env2 v st := by
  have key : ∀ env : AcqEnv,
      getOrCreateReleaseNotes env v st = Except.ok (catalogToJson C, st) :=
    fun env => getOrCreate_hit (cachedJson_of_lookup_stringify h) env
  exact fun env env2 => ⟨key env, (key env).trans (key env2).symm⟩

/-- Witness for the cache-first contract: with a pre-populated store, even
an environment whose fetch would fail returns the stored catalog. -/
theorem acquirer_cache_first_witness :
    getOrCreateReleaseNotes envFetchFail "132".toList
        (saveCatalog [] "132".toList (catalogToJson [fooRec])) =
      Except.ok (catalogToJson [fooRec],
        saveCatalog [] "132".toList (catalogToJson [fooRec])) :=
  (acquirer_cache_first _ _ [fooRec] (by decide) envFetchFail envFetchFail).1

/-- C7: catalog round-trip — saving the JSON form of any non-empty valid
catalog for version `v` and loading `v` returns an equal catalog, and a
subsequent acquisition run returns that same catalog without modifying the
store. -/
theorem catalog_roundtrip (st : Store) (v : List Char) (C : List DeprecatedAPI)
    (_hC : C ≠ []) :
    loadCatalog (saveCatalog st v (catalogToJson C)) v = some (catalogToJson C) ∧
    ∀ env : AcqEnv,
      getOrCreateReleaseNotes env v (saveCatalog st v (catalogToJson C)) =
        Except.ok (catalogToJson C, saveCatalog st v (catalogToJson C)) := by
  have hlook : lookupStore (saveCatalog st v (catalogToJson C)) (fileNameFor v)
      = some (jsonStringify (catalogToJson C)) :=
    lookupStore_insert st (fileNameFor v) _
  constructor
  · rw [loadCatalog, hlook]
    exact jsonParse_stringify _
  · exact fun env => getOrCreate_hit (cachedJson_of_lookup_stringify hlook) env

/-- Witness for the catalog round-trip, on a one-record catalog. -/
theorem catalog_roundtrip_witness :
    loadCatalog (saveCatalog [] "132".toList (catalogToJson [fooRec])) "132".toList =
      some (catalogToJson [fooRec]) :=
  (catalog_roundtrip [] "132".toList [fooRec] (by simp)).1

/-- C2 counterexample: with an empty Catalog Store, a transport failure
fetching the remote document is NOT swallowed at the Acquirer boundary —
the caller of getOrCreateReleaseNotes observes the thrown error instead of
receiving a catalog. -/
theorem acquirer_fetch_error_propagates :
    getOrCreateReleaseNotes envFetchFail "132".toList [] = Except.error err404 := by
  rfl

/-- C2 amended: inference-path failures are swallowed — whenever the remote
fetch succeeds the caller receives a (possibly empty) catalog value, never
a thrown error — but a transport failure fetching the remote document is
not swallowed: with no valid cache entry, the error propagates to the
caller of the Acquirer. -/
theorem acquirer_failure_policy (env : AcqEnv) (v : List Char) (st : Store) :
    (∀ rawHTML, env.fetchResult = Except.ok rawHTML →
      ∃ j st2, getOrCreateReleaseNotes env v st = Except.ok (j, st2)) ∧
    (∀ e, env.fetchResult = Except.error e →
      lookupStore st (fileNameFor v) = none →
      getOrCreateReleaseNotes env v st = Except.error e) := by
  constructor
  · intro rawHTML hf
    cases hc : cachedJson st v with
    | some j => exact ⟨j, st, getOrCreate_hit hc env⟩
    | none => exact ⟨_, _, getOrCreate_miss_ok hc env hf⟩
  · intro e hf hlook
    exact getOrCreate_miss_error (cachedJson_of_lookup_none hlook) env hf

/-- Witness for the failure policy: a successful fetch yields a catalog
even without a model; a failed fetch propagates the transport error. -/
theorem acquirer_failure_policy_witness :
    (∃ j st2, getOrCreateReleaseNotes envOkNoModel "132".toList [] =
      Except.ok (j, st2)) ∧
    getOrCreateReleaseNotes envFetchFail "132".toList [] = Except.error err404 :=
  ⟨(acquirer_failure_policy envOkNoModel "132".toList []).1 _ rfl,
   (acquirer_failure_policy envFetchFail "132".toList []).2 err404 rfl rfl⟩

/-- C3 counterexample: when the inference step yields zero records (here:
no model available), the run returns the empty catalog AND persists it —
afterwards the store holds an entry for the version identifier, and that
entry loads back as the empty catalog, so re-acquisition is ruled out. -/
theorem acquirer_persists_empty_catalog :
    getOrCreateReleaseNotes envOkNoModel "132".toList [] =
      Except.ok (Json.jarr [], saveCatalog [] "132".toList (Json.jarr [])) ∧
    loadCatalog (saveCatalog [] "132".toList (Json.jarr [])) "132".toList =
      some (Json.jarr []) := by
  constructor <;> rfl

/-- C3 amended: whenever the text-generation step yields zero records (no
model available) after a cache miss and a successful fetch, the Acquirer
returns the empty catalog and persists it; the store then holds an entry
for that version identifier, that entry loads back as the empty catalog,
and every subsequent run returns the cached empty catalog without
re-acquiring. -/
theorem acquirer_empty_catalog_persisted (env : AcqEnv) (v : List Char)
    (st : Store) (rawHTML : List Char)
    (hmiss : lookupStore st (fileNameFor v) = none)
    (hfetch : env.fetchResult = Except.ok rawHTML)
    (hnm : env.hasModel = false) :
    getOrCreateReleaseNotes env v st =
      Except.ok (Json.jarr [], saveCatalog st v (Json.jarr [])) ∧
    loadCatalog (saveCatalog st v (Json.jarr [])) v = some (Json.jarr []) ∧
    ∀ env2 : AcqEnv,
      getOrCreateReleaseNotes env2 v (saveCatalog st v (Json.jarr [])) =
        Except.ok (Json.jarr [], saveCatalog st v (Json.jarr [])) := by
  have hlook : lookupStore (saveCatalog st v (Json.jarr [])) (fileNameFor v)
      = some (jsonStringify (Json.jarr [])) :=
    lookupStore_insert st (fileNameFor v) _
  refine ⟨?_, ?_, ?_⟩
  · rw [getOrCreate_miss_ok (cachedJson_of_lookup_none hmiss) env hfetch,
      parseReleaseNotes_no_model hnm]
    rfl
  · rw [loadCatalog, hlook]
    exact jsonParse_stringify _
  · exact fun env2 => getOrCreate_hit (cachedJson_of_lookup_stringify hlook) env2

/-- Witness for the persisted empty catalog, on the no-model environment. -/
theorem acquirer_empty_catalog_persisted_witness :
    getOrCreateReleaseNotes envOkNoModel "132".toList [] =
      Except.ok (Json.jarr [], saveCatalog [] "132".toList (Json.jarr [])) ∧
    loadCatalog (saveCatalog [] "132".toList (Json.jarr [])) "132".toList =
      some (Json.jarr []) ∧
    ∀ env2 : AcqEnv,
      getOrCreateReleaseNotes env2 "132".toList
          (saveCatalog [] "132".toList (Json.jarr [])) =
        Except.ok (Json.jarr [], saveCatalog [] "132".toList (Json.jarr [])) :=
  acquirer_empty_catalog_persisted envOkNoModel "132".toList []
    "<html></html>".toList rfl rfl rfl

/-- C5 counterexample: a response whose fenced json block parses to a JSON
value that is not an ordered sequence (here: a bare object) is returned
as-is by the response handler — not replaced by the empty sequence. -/
theorem parser_returns_non_sequence :
    handleCopilotResponse nonArrayResponse = Json.jatom (JVal.jobj []) ∧
    handleCopilotResponse nonArrayResponse ≠ Json.jarr [] := by
  constructor
  · rfl
  · decide

/-- C5 amended: the Structured-Record Parser returns the empty sequence
(and never throws past its boundary) when the response has no fenced json
block (or an empty capture) and when the block's contents fail to parse as
JSON; but when the contents parse successfully the parsed value is
returned unchecked, even when the top-level value is not an ordered
sequence. -/
theorem parser_robustness (r : List Char) :
    (extractJsonBlock r = none → handleCopilotResponse r = Json.jarr []) ∧
    (∀ c, extractJsonBlock r = some c → jsonParse c = none →
      handleCopilotResponse r = Json.jarr []) ∧
    (∀ c j, extractJsonBlock r = some c → c ≠ [] → jsonParse c = some j →
      handleCopilotResponse r = j) := by
  refine ⟨?_, ?_, ?_⟩
  · intro h
    rw [handleCopilotResponse, h]
  · intro c h1 h2
    rw [handleCopilotResponse, h1]
    show (if c.isEmpty = true then Json.jarr []
      else
        match jsonParse c with
        | some parsed => parsed
        | none => Json.jarr []) = Json.jarr []
    cases hc : c.isEmpty with
    | true => rfl
    | false => rw [if_neg (by simp), h2]
  · intro c j h1 h2 h3
    rw [handleCopilotResponse, h1]
    show (if c.isEmpty = true then Json.jarr []
      else
        match jsonParse c with
        | some parsed => parsed
        | none => Json.jarr []) = j
    rw [if_neg (by simp [List.isEmpty_iff, h2]), h3]

/-- Witness for parser robustness: a block-free response and an
unparsable block both yield the empty array; a parsable non-array block is
returned as-is. -/
theorem parser_robustness_witness :
    handleCopilotResponse "no block here".toList = Json.jarr [] ∧
    handleCopilotResponse "```jsonZZ```".toList = Json.jarr [] ∧
    handleCopilotResponse nonArrayResponse = Json.jatom (JVal.jobj []) :=
  ⟨(parser_robustness "no block here".toList).1 (by decide),
   (parser_robustness "```jsonZZ```".toList).2.1 "ZZ".toList (by decide) (by decide),
   (parser_robustness nonArrayResponse).2.2 "O#".toList (Json.jatom (JVal.jobj []))
     (by decide) (by decide) (by decide)⟩

end Cdw
